import Mathlib

/-!
Shallow embedding of `xhr-fetch-interceptor` (src/src/index.ts and its type
declarations).  The library hijacks the browser's two HTTP transports
(`XMLHttpRequest` and `fetch`), matches every call against an ordered list of
`InjectConfig` rules and runs the rules' hooks (`beforeSendCallback`,
`preCallback`, `callback`, `lastCallback`).

Host primitives that the library only consumes (the WHATWG `URL` constructor,
`JSON.stringify`, `JSON.parse`, the native transports themselves) are modelled:
`parseURL` and `stringify` are concrete simplified models of the corresponding
browser primitives, `JSON.parse` is a parameter of the fetch pipeline, and the
native completion of a subsidiary XHR call is a parameter (`XhrWorld`) of the
XHR response pipeline.  Everything else is translated line by line from the
TypeScript source.
-/

namespace XFI

/-- ASCII lowercasing of a character; models JS `String.prototype.toLowerCase`
(and `toLocaleLowerCase`) on the ASCII inputs the library deals with
(header names, HTTP methods, URL schemes/hosts). -/
def lowerChar (c : Char) : Char :=
  if 'A' ≤ c ∧ c ≤ 'Z' then Char.ofNat (c.toNat + 32) else c

/-- ASCII lowercasing of a string. -/
def lowerAscii (s : String) : String :=
  String.mk (s.data.map lowerChar)

/-- Model of a JavaScript value (the `any`-typed bodies and response data the
hooks exchange).  `jundef` stands for `undefined`/absent. -/
inductive JValue where
  | jstr : String → JValue
  | jnum : Int → JValue
  | jbool : Bool → JValue
  | jnull : JValue
  | jarr : List JValue → JValue
  | jobj : List (String × JValue) → JValue

/-- JS truthiness of a value (`if (x)`). -/
def jTruthy : JValue → Bool
  | .jstr s => s ≠ ""
  | .jnum n => n ≠ 0
  | .jbool b => b
  | .jnull => false
  | .jarr _ => true
  | .jobj _ => true

/-- One JSON-escaped character; models the escaping performed by
`JSON.stringify` on string values. -/
def escapeJsonChar (c : Char) : String :=
  if c = '"' then "\\\""
  else if c = '\\' then "\\\\"
  else if c = '\n' then "\\n"
  else if c = '\t' then "\\t"
  else if c = '\r' then "\\r"
  else if c.toNat < 32 then "\\u00" ++
    String.mk [(Nat.digitChar (c.toNat / 16)), (Nat.digitChar (c.toNat % 16))]
  else String.singleton c

/-- JSON string quoting, models `JSON.stringify` applied to a string. -/
def quoteJson (s : String) : String :=
  "\"" ++ (s.data.map escapeJsonChar).foldl (· ++ ·) "" ++ "\""

mutual
/-- Model of the host `JSON.stringify` primitive on `JValue`. -/
def stringify : JValue → String
  | .jstr s => quoteJson s
  | .jnum n => toString n
  | .jbool b => if b then "true" else "false"
  | .jnull => "null"
  | .jarr xs => "[" ++ stringifyItems xs ++ "]"
  | .jobj kvs => "\x7b" ++ stringifyFields kvs ++ "\x7d"

/-- Comma-separated serialization of array items. -/
def stringifyItems : List JValue → String
  | [] => ""
  | [x] => stringify x
  | x :: y :: xs => stringify x ++ "," ++ stringifyItems (y :: xs)

/-- Comma-separated serialization of object fields. -/
def stringifyFields : List (String × JValue) → String
  | [] => ""
  | [(k, v)] => quoteJson k ++ ":" ++ stringify v
  | (k, v) :: f :: fs => quoteJson k ++ ":" ++ stringify v ++ "," ++ stringifyFields (f :: fs)
end

/-- The three URL components `isTargetUrl` (src/src/index.ts:314-330) compares:
`protocol`, `host`, `pathname` of a parsed absolute URL. -/
structure URLRec where
  protocol : String
  host : String
  pathname : String
deriving DecidableEq, Repr

/-- Split a character list at the first occurrence of the literal `://`,
returning the scheme characters before it and the remainder after it. -/
def findSchemeSplit : List Char → Option (List Char × List Char)
  | [] => none
  | ':' :: '/' :: '/' :: rest => some ([], rest)
  | c :: rest => (findSchemeSplit rest).map (fun p => (c :: p.1, p.2))

/-- ASCII letter test. -/
def isAlphaChar (c : Char) : Bool :=
  ('a' ≤ c ∧ c ≤ 'z') ∨ ('A' ≤ c ∧ c ≤ 'Z')

/-- Characters allowed in a URL scheme after the first (which must be a
letter). -/
def isSchemeChar (c : Char) : Bool :=
  isAlphaChar c || c.isDigit || c = '+' || c = '-' || c = '.'

/-- Model of the WHATWG `new URL(s)` constructor, restricted to the three
components the library compares.  Simplifications: only `scheme://host/path`
URLs are recognised, no percent/dot-segment normalisation.  A relative
reference (no valid `scheme://`) fails to parse, exactly as `new URL` throws
on it; scheme and host are lowercased as the host primitive does. -/
def parseURL (s : String) : Option URLRec :=
  match findSchemeSplit s.data with
  | none => none
  | some (scheme, rest) =>
    match scheme with
    | [] => none
    | c :: _ =>
      if isAlphaChar c ∧ scheme.all isSchemeChar then
        let host := rest.takeWhile (fun ch => ch ≠ '/' ∧ ch ≠ '?' ∧ ch ≠ '#')
        let tail := rest.dropWhile (fun ch => ch ≠ '/' ∧ ch ≠ '?' ∧ ch ≠ '#')
        let path := tail.takeWhile (fun ch => ch ≠ '?' ∧ ch ≠ '#')
        if host = [] then none
        else some { protocol := lowerAscii (String.mk (scheme ++ [':']))
                  , host := lowerAscii (String.mk host)
                  , pathname := if path = [] then "/" else String.mk path }
      else none

/-- JS `s.startsWith('/')`. -/
def startsWithSlash (s : String) : Bool :=
  s.data.head? == some '/'

/-- `genUrl` (src/src/index.ts:301-306): resolve a leading-`/` URL against the
page origin, then parse.  The JS version throws on an unparsable input; we
return `none` there. -/
def genUrl (origin url : String) : Option URLRec :=
  if startsWithSlash url then parseURL (origin ++ url)
  else parseURL url

/-- Candidate-URL resolution at the XHR send stage (src/src/index.ts:98):
`this.uri?.startsWith('/') ? location.origin + this.uri : this.uri`. -/
def requestUrlOf (origin uri : String) : String :=
  if startsWithSlash uri then origin ++ uri else uri

/-- A rule's `url` field: `string | RegExp`.  A `RegExp` is modelled by its
test function plus an identity token, because the registry compares `RegExp`
targets by reference (`===`). -/
inductive UrlTarget where
  | str : String → UrlTarget
  | regex : Nat → (String → Bool) → UrlTarget

/-- JS `===` on the `url` field of two rules: value equality for strings,
reference (identity-token) equality for `RegExp` objects. -/
def urlRefEq : UrlTarget → UrlTarget → Bool
  | .str a, .str b => a == b
  | .regex i _, .regex j _ => i == j
  | _, _ => false

/-- `isTargetUrl` (src/src/index.ts:314-330): a `RegExp` target is tested
against the raw candidate; a string target and the candidate are both parsed
as absolute URLs and compared on host, protocol and pathname; any parse
failure yields `false`. -/
def isTargetUrl (url : String) (target : UrlTarget) : Bool :=
  match target with
  | .regex _ test => test url
  | .str t =>
    match parseURL url, parseURL t with
    | some u, some tu =>
      u.host == tu.host && u.protocol == tu.protocol && u.pathname == tu.pathname
    | _, _ => false

/-- `isMethodEqual` (src/src/index.ts:338-340): case-insensitive comparison;
an absent method (`undefined`) never equals a string. -/
def isMethodEqual (method : Option String) (targetMethod : String) : Bool :=
  match method with
  | some m => lowerAscii m == lowerAscii targetMethod
  | none => false

/-- `IRequestInfo`: the `{url, data}` record passed to hooks.  The JS `url`
field is a `URL` object; construction can throw on bad input, so it is an
`Option` here. -/
structure ReqInfo where
  url : Option URLRec
  data : Option JValue

/-- The second component of an `IPreCallbackResult`: `{uri?, data?}`. -/
structure Replacement where
  uri : Option String
  data : Option JValue

/-- A `BeforeSendCallBackResult` record `{url?, data?}`; the `url` field is
modelled by the string the `URL` object stringifies to. -/
structure BeforeSendResult where
  url : Option String
  data : Option JValue

/-- An `InjectConfig` rule.  `callback`'s return value is discarded by the
pipeline, so only its presence is modelled; the other hooks are modelled as
Lean functions.  An async hook is modelled by its awaited result. -/
structure InjectConfig where
  url : UrlTarget
  method : String
  hasCallback : Bool
  preCallback : Option (JValue → ReqInfo → Bool × Replacement)
  lastCallback : Option (JValue → ReqInfo → JValue)
  beforeSendCallback : Option (ReqInfo → Option BeforeSendResult)

/-- Whether a rule matches a candidate URL and method:
`isTargetUrl(url, config.url) && isMethodEqual(method, config.method)`. -/
def matchC (url : String) (method : Option String) (c : InjectConfig) : Bool :=
  isTargetUrl url c.url && isMethodEqual method c.method

/-- The observable completion fields of an XHR (the fields mirrored by the
`XMLHttpRequestProxy` shadow record). -/
structure RespFields where
  status : Nat
  statusText : String
  response : JValue
  responseText : String
  responseXML : Option String
  responseType : String
  readyState : Nat

/-- `getResponseData` (src/src/index.ts:342-344). -/
def getResponseData (r : RespFields) : JValue :=
  if r.responseType == "json" then r.response else .jstr r.responseText

/-- Abstraction of a subsidiary XHR issued by the supersede path
(src/src/index.ts:146-181): given method, URI and body, the completion
snapshot that call eventually delivers to its `onreadystatechange` handler
(including any effect of the snapshot's own trip through the hijacked
transport). -/
def XhrWorld : Type :=
  String → String → Option JValue → RespFields

/-- A record of one hook invocation, tagged with the index of the rule in the
registry that triggered it. -/
inductive HookEvent where
  | beforeSendEvt : Nat → HookEvent
  | preCBEvt : Nat → HookEvent
  | cbEvt : Nat → HookEvent
  | lastCBEvt : Nat → HookEvent
deriving DecidableEq, Repr

/-- Outcome of the response-stage rule loop: either the loop ran to the end
(`done`, completion delivered synchronously with the final field view), or a
`preCallback` superseded the call (`sup`), carrying the deferred view the
original handler eventually observes (`none` when the subsidiary call never
reaches ready state 4, so the handler never fires). -/
inductive XhrLoopOut where
  | done : RespFields → XhrLoopOut
  | sup : Option RespFields → XhrLoopOut

/-- Overwrite the body fields of a field view with a `lastCallback` result:
`response` takes the value itself, `responseText` its JSON serialization
(src/src/index.ts:163-164 and 192-193 — the serialization is unconditional,
strings included). -/
def overwriteBody (r : RespFields) (m : JValue) : RespFields :=
  { r with response := m, responseText := stringify m }

/-- The view copied off a completed subsidiary XHR into the proxy shadow
(src/src/index.ts:151-156): its five completion fields, with `responseType`
staying at the proxy's initial `''` (it is never copied). -/
def supersedeView (newResp : RespFields) : RespFields :=
  { status := newResp.status, statusText := newResp.statusText
  , response := newResp.response, responseText := newResp.responseText
  , responseXML := newResp.responseXML, responseType := ""
  , readyState := newResp.readyState }

/-- The `callback`/`lastCallback` part of one response-loop iteration
(src/src/index.ts:185-198): compute `responseData` once, invoke `callback`
for observation, then let `lastCallback` overwrite the body fields. -/
def xhrObserveStage (ri : ReqInfo) (cfg : InjectConfig) (i : Nat) (cur : RespFields) :
    List HookEvent × RespFields :=
  let responseData := getResponseData cur
  let cbEvts := if cfg.hasCallback then [HookEvent.cbEvt i] else []
  match cfg.lastCallback with
  | some g =>
    (cbEvts ++ [HookEvent.lastCBEvt i], overwriteBody cur (g responseData ri))
  | none => (cbEvts, cur)

/-- The response-stage rule loop of the wrapped `onreadystatechange`
(src/src/index.ts:133-199).  Non-matching rules are skipped; a matching
rule's `preCallback` may supersede the call (issuing a subsidiary call whose
completion, further shaped by `lastCallback`, becomes the deferred view);
otherwise the observation stage runs and — the loop body having no `break` —
iteration continues with the next rule over the mutated field view. -/
def xhrRespLoop (world : XhrWorld) (method : Option String) (ri : ReqInfo)
    (responseURL : String) :
    List InjectConfig → Nat → RespFields → List HookEvent × XhrLoopOut
  | [], _, cur => ([], .done cur)
  | cfg :: rest, i, cur =>
    if matchC responseURL method cfg then
      match cfg.preCallback with
      | some f =>
        let pr := f (getResponseData cur) ri
        if pr.1 then
          let (evts, cur2) := xhrObserveStage ri cfg i cur
          let (evts2, out) := xhrRespLoop world method ri responseURL rest (i + 1) cur2
          (HookEvent.preCBEvt i :: (evts ++ evts2), out)
        else
          let newResp := world (method.getD "") (pr.2.uri.getD "undefined") pr.2.data
          if newResp.readyState = 4 then
            let view0 := supersedeView newResp
            match cfg.lastCallback with
            | some g =>
              ([HookEvent.preCBEvt i, HookEvent.lastCBEvt i],
               .sup (some (overwriteBody view0 (g (getResponseData view0) ri))))
            | none => ([HookEvent.preCBEvt i], .sup (some view0))
          else ([HookEvent.preCBEvt i], .sup none)
      | none =>
        let (evts, cur2) := xhrObserveStage ri cfg i cur
        let (evts2, out) := xhrRespLoop world method ri responseURL rest (i + 1) cur2
        (evts ++ evts2, out)
    else xhrRespLoop world method ri responseURL rest (i + 1) cur

/-- What one invocation of the wrapped `onreadystatechange`
(src/src/index.ts:129-203) makes the page observe: the hook invocations in
order, the completion-handler firings with the field view each one observes,
and whether the firing was deferred behind a superseding call. -/
structure XhrObs where
  events : List HookEvent
  fired : List RespFields
  superseded : Bool

/-- One invocation of the wrapped `onreadystatechange`, for a native snapshot
`native` with response URL `responseURL`: the pipeline engages only on
`readyState === 4 && status === 200`; otherwise the original handler fires
with the native fields untouched. -/
def runXhrResponse (world : XhrWorld) (origin : String) (configs : List InjectConfig)
    (method : Option String) (body : Option JValue) (native : RespFields)
    (responseURL : String) : XhrObs :=
  if native.readyState = 4 ∧ native.status = 200 then
    let ri : ReqInfo := { url := genUrl origin responseURL, data := body }
    match xhrRespLoop world method ri responseURL configs 0 native with
    | (evts, .done cur) => { events := evts, fired := [cur], superseded := false }
    | (evts, .sup (some view)) => { events := evts, fired := [view], superseded := true }
    | (evts, .sup none) => { events := evts, fired := [], superseded := true }
  else { events := [], fired := [native], superseded := false }

/-- One recorded request header: original-case name plus value. -/
structure HeaderRec where
  name : String
  value : String
deriving DecidableEq, Repr

/-- JS `Map.prototype.set`: replace in place when the key exists (keeping its
insertion position), else append. -/
def mapSet (m : List (String × HeaderRec)) (key : String) (v : HeaderRec) :
    List (String × HeaderRec) :=
  if m.any (fun e => e.1 == key) then
    m.map (fun e => if e.1 == key then (key, v) else e)
  else m ++ [(key, v)]

/-- Per-call state of the XHR send stage: target URI and method, the
`_requestHeaders` map (keyed by lowercased name, storing the original-case
name and value), the headers actually applied to the underlying native
request since its last `open`, and the current body. -/
structure SendState where
  uri : String
  method : Option String
  recordedHeaders : List (String × HeaderRec)
  nativeHeaders : List (String × String)
  body : Option JValue

/-- The wrapped `setRequestHeader` (src/src/index.ts:68-71): record the header
under its lowercased name and delegate to the original, which applies it to
the native request. -/
def recordHeader (st : SendState) (name value : String) : SendState :=
  { st with
    recordedHeaders := mapSet st.recordedHeaders (lowerAscii name) ⟨name, value⟩
  , nativeHeaders := st.nativeHeaders ++ [(name, value)] }

/-- Header re-application after a URL override (src/src/index.ts:117-121):
walk the saved map in order and re-set every header whose name is not
`content-length` (case-insensitively). -/
def applySavedHeaders (saved : List (String × HeaderRec)) (st : SendState) : SendState :=
  saved.foldl
    (fun s e =>
      if lowerAscii e.2.name == "content-length" then s
      else recordHeader s e.2.name e.2.value)
    st

/-- `if (newBody) body = newBody` (src/src/index.ts:109): a returned `data`
replaces the body only when truthy. -/
def applyBodyOverride (st : SendState) (res : BeforeSendResult) : SendState :=
  match res.data with
  | some d => if jTruthy d then { st with body := some d } else st
  | none => st

/-- The pre-send rule loop of the wrapped `send` (src/src/index.ts:100-126):
only the first matching rule applies (`break`); its `beforeSendCallback` may
replace the body (if the returned `data` is truthy) and/or the URL — a URL
override re-runs the original `open` (resetting the native request's applied
headers) and replays the saved headers minus `content-length`. -/
def xhrSendLoop (requestUrl : String) :
    List InjectConfig → Nat → SendState → List HookEvent × SendState
  | [], _, st => ([], st)
  | cfg :: rest, i, st =>
    if matchC requestUrl st.method cfg then
      match cfg.beforeSendCallback with
      | none => ([], st)
      | some f =>
        let ri : ReqInfo := { url := parseURL requestUrl, data := st.body }
        let res := (f ri).getD { url := none, data := none }
        let st1 := applyBodyOverride st res
        match res.url with
        | some u =>
          let saved := st1.recordedHeaders
          ([HookEvent.beforeSendEvt i],
           applySavedHeaders saved { st1 with uri := u, nativeHeaders := [] })
        | none => ([HookEvent.beforeSendEvt i], st1)
    else xhrSendLoop requestUrl rest (i + 1) st

/-- The whole pre-send stage: resolve the candidate URL against the page
origin (src/src/index.ts:98) and run the first-match rule loop. -/
def xhrSendStage (origin : String) (configs : List InjectConfig) (st : SendState) :
    List HookEvent × SendState :=
  xhrSendLoop (requestUrlOf origin st.uri) configs 0 st

/-- The observable fields of a fetch `Response`. -/
structure FetchResponse where
  url : String
  status : Nat
  statusText : String
  headers : List (String × String)
  bodyText : String

/-- Line 274 of src/src/index.ts: a string hook result becomes the new body
text verbatim, anything else is JSON-serialized. -/
def asBodyText (v : JValue) : String :=
  match v with
  | .jstr s => s
  | _ => stringify v

/-- The fetch response-stage rule loop (src/src/index.ts:245-283), with
`parse` modelling `JSON.parse` (`none` = would throw, fall back to the raw
text).  For each matching rule the cloned body is parsed and `callback`
observes it; the first matching rule with a `lastCallback` builds and returns
a brand-new response (whose `url` is empty, as for any constructed
`Response`) and ends the loop.  `preCallback` is never consulted on this
transport. -/
def fetchRespLoop (parse : String → Option JValue) (origin : String) (method : String)
    (initBody : Option JValue) (resp : FetchResponse) :
    List InjectConfig → Nat → List HookEvent × FetchResponse
  | [], _ => ([], resp)
  | cfg :: rest, i =>
    if matchC resp.url (some method) cfg then
      let content := resp.bodyText
      let responseData := (parse content).getD (.jstr content)
      let ri : ReqInfo := { url := genUrl origin resp.url, data := initBody }
      let cbEvts := if cfg.hasCallback then [HookEvent.cbEvt i] else []
      match cfg.lastCallback with
      | some g =>
        let m := g responseData ri
        (cbEvts ++ [HookEvent.lastCBEvt i],
         { url := "", status := resp.status, statusText := resp.statusText
         , headers := resp.headers, bodyText := asBodyText m })
      | none =>
        let (evts, out) := fetchRespLoop parse origin method initBody resp rest (i + 1)
        (cbEvts ++ evts, out)
    else fetchRespLoop parse origin method initBody resp rest (i + 1)

/-- The fetch response stage, started at rule index 0. -/
def runFetchResponse (parse : String → Option JValue) (origin : String)
    (configs : List InjectConfig) (method : String) (initBody : Option JValue)
    (resp : FetchResponse) : List HookEvent × FetchResponse :=
  fetchRespLoop parse origin method initBody resp configs 0

/-- The registry's duplicate test (src/src/index.ts:44):
`cf.url === newCf.url && cf.method === newCf.method`. -/
def sameKey (a b : InjectConfig) : Bool :=
  urlRefEq a.url b.url && a.method == b.method

/-- `addConfig` (src/src/index.ts:41-47): append each new rule unless a rule
with `===`-equal `url` and `method` is already present (including rules
appended earlier in the same batch). -/
def addConfig (regs : List InjectConfig) (newConfigs : List InjectConfig) :
    List InjectConfig :=
  newConfigs.foldl
    (fun acc n => if acc.any (fun c => sameKey c n) then acc else acc ++ [n])
    regs

/-- A transport entry point: either some native function (abstracted by a
token) or one of the three wrappers the interceptor installs. -/
inductive EntryPoint where
  | nativeFn : Nat → EntryPoint
  | wrappedOpen : EntryPoint
  | wrappedSend : EntryPoint
  | wrappedFetch : EntryPoint
deriving DecidableEq, Repr

/-- The state of an interceptor instance: its rule registry plus the three
captured original entry points. -/
structure Session where
  interceptConfigs : List InjectConfig
  originalXHRopen : EntryPoint
  originalXHRsend : EntryPoint
  originalFetch : EntryPoint

/-- Process-wide mutable state touched by the lifecycle: the static
`isHijacked` flag, the module-level `INSTANCE` reference, and the three live
transport entry points (`XMLHttpRequest.prototype.open`,
`XMLHttpRequest.prototype.send`, `unsafeWindow.fetch`). -/
structure GlobalState where
  isHijacked : Bool
  instanceRef : Option Session
  xhrOpen : EntryPoint
  xhrSend : EntryPoint
  fetchEP : EntryPoint

/-- Result of running the constructor: the new global state plus everything
written to `console.warn`. -/
structure CtorOut where
  state : GlobalState
  logs : List String

/-- The warning emitted at src/src/index.ts:27. -/
def alreadyActiveWarning : String :=
  "XHRAndFetchInterceptor: Already activated, avoid duplicate interception."

/-- The constructor (src/src/index.ts:21-38).  While hijacked with a live
instance: forward the options to `addConfig` and reuse the instance, with no
log.  While hijacked without an instance: warn and install nothing.  First
construction: store the option batch as given (no duplicate suppression),
capture the current entry points and install the three wrappers. -/
def construct (st : GlobalState) (options : List InjectConfig) : CtorOut :=
  if st.isHijacked then
    match st.instanceRef with
    | some s =>
      { state :=
          { st with instanceRef := some { s with interceptConfigs := addConfig s.interceptConfigs options } }
      , logs := [] }
    | none => { state := st, logs := [alreadyActiveWarning] }
  else
    { state :=
        { isHijacked := true
        , instanceRef := some
            { interceptConfigs := options
            , originalXHRopen := st.xhrOpen
            , originalXHRsend := st.xhrSend
            , originalFetch := st.fetchEP }
        , xhrOpen := EntryPoint.wrappedOpen
        , xhrSend := EntryPoint.wrappedSend
        , fetchEP := EntryPoint.wrappedFetch }
    , logs := [] }

/-- `restore` (src/src/index.ts:289-293) on the instance `s`: put the three
captured entry points back; nothing else changes. -/
def restoreSession (s : Session) (st : GlobalState) : GlobalState :=
  { st with
    xhrOpen := s.originalXHRopen
  , xhrSend := s.originalXHRsend
  , fetchEP := s.originalFetch }

/-- The rule indices at which a `callback` hook fired, in order. -/
def cbIndices (evts : List HookEvent) : List Nat :=
  evts.filterMap (fun e => match e with | .cbEvt i => some i | _ => none)

/-- Specification of which rules' `callback` hooks fire for a completion with
response URL `rurl` and method `method`: every matching rule that has one,
in registry order (indices offset by the start index `j`). -/
def cbSpec (rurl : String) (method : Option String) :
    List InjectConfig → Nat → List Nat
  | [], _ => []
  | c :: rest, j =>
    (if matchC rurl method c && c.hasCallback then [j] else []) ++
      cbSpec rurl method rest (j + 1)

/-- How many registry entries carry a given `(url, method)` identity. -/
def countPair (regs : List InjectConfig) (u : UrlTarget) (m : String) : Nat :=
  (regs.filter (fun c => urlRefEq c.url u && c.method == m)).length

/-- No two registry entries share their `(url, method)` identity. -/
def distinctKeys (regs : List InjectConfig) : Prop :=
  List.Pairwise (fun a b => sameKey a b = false) regs

/-! Concrete fixtures used by witnesses and counterexamples. -/

/-- A sample page origin. -/
def origin0 : String := "https://a.com"

/-- A sample absolute URL on that origin. -/
def urlA : String := "https://a.com/x"

/-- A rule with only a `callback`, targeting `urlA` with method `get`. -/
def ruleCbA : InjectConfig :=
  { url := .str urlA, method := "get", hasCallback := true
  , preCallback := none, lastCallback := none, beforeSendCallback := none }

/-- A second `callback`-only rule whose string target differs from `urlA`
only by a query string, so it matches the same calls but has a different
registry identity. -/
def ruleCbB : InjectConfig :=
  { url := .str "https://a.com/x?q=1", method := "get", hasCallback := true
  , preCallback := none, lastCallback := none, beforeSendCallback := none }

/-- A rule with the same `(url, method)` identity as `ruleCbA` but a
`lastCallback` that returns the plain string `"hi"`. -/
def ruleLcStr : InjectConfig :=
  { url := .str urlA, method := "get", hasCallback := false
  , preCallback := none, lastCallback := some (fun _ _ => .jstr "hi")
  , beforeSendCallback := none }

/-- A rule whose string target is the relative path `/x`. -/
def ruleRelTarget : InjectConfig :=
  { url := .str "/x", method := "get", hasCallback := false
  , preCallback := none, lastCallback := none, beforeSendCallback := none }

/-- A native completion snapshot: ready state 4, status 200, body `"ok"`. -/
def native200 : RespFields :=
  { status := 200, statusText := "OK", response := .jnull, responseText := "ok"
  , responseXML := none, responseType := "", readyState := 4 }

/-- Like `native200` but with status 201. -/
def native201 : RespFields :=
  { native200 with status := 201 }

/-- A subsidiary-call world that always completes with status 202 and body
`"sup"`. -/
def world0 : XhrWorld := fun _ _ _ =>
  { status := 202, statusText := "Accepted", response := .jnull
  , responseText := "sup", responseXML := none, responseType := ""
  , readyState := 4 }

/-! Helper lemmas about the rule loops. -/

/-- A non-matching rule is skipped by the XHR response loop. -/
theorem xhrRespLoop_skip_one (world : XhrWorld) (method : Option String)
    (ri : ReqInfo) (rurl : String) (c : InjectConfig) (rest : List InjectConfig)
    (i : Nat) (cur : RespFields) (h : matchC rurl method c = false) :
    xhrRespLoop world method ri rurl (c :: rest) i cur =
      xhrRespLoop world method ri rurl rest (i + 1) cur := by
  simp [xhrRespLoop, h]

/-- A block of non-matching rules is skipped by the XHR response loop. -/
theorem xhrRespLoop_skip_pre (world : XhrWorld) (method : Option String)
    (ri : ReqInfo) (rurl : String) (pre rest : List InjectConfig)
    (i : Nat) (cur : RespFields)
    (h : ∀ c ∈ pre, matchC rurl method c = false) :
    xhrRespLoop world method ri rurl (pre ++ rest) i cur =
      xhrRespLoop world method ri rurl rest (i + pre.length) cur := by
  induction pre generalizing i with
  | nil => simp
  | cons a pre ih =>
    rw [List.cons_append,
      xhrRespLoop_skip_one world method ri rurl a (pre ++ rest) i cur (h a (by simp)),
      ih (i + 1) (fun c hc => h c (by simp [hc]))]
    have : i + 1 + pre.length = i + (a :: pre).length := by
      simp [List.length_cons]; omega
    rw [this]

/-- When every rule fails to match, the XHR response loop is the identity. -/
theorem xhrRespLoop_all_skip (world : XhrWorld) (method : Option String)
    (ri : ReqInfo) (rurl : String) (cfgs : List InjectConfig)
    (i : Nat) (cur : RespFields)
    (h : ∀ c ∈ cfgs, matchC rurl method c = false) :
    xhrRespLoop world method ri rurl cfgs i cur = ([], .done cur) := by
  have := xhrRespLoop_skip_pre world method ri rurl cfgs [] i cur h
  simpa [xhrRespLoop] using this

/-- C10: on the legacy transport the response pipeline engages only on
`readyState === 4 && status === 200`; for any other snapshot — any other
status (201, 204, redirects, errors) or a non-terminal ready state — no hook
runs and the original completion handler fires with the native response
fields unchanged. -/
theorem c10_pipeline_only_on_status_200 (world : XhrWorld) (origin : String)
    (configs : List InjectConfig) (method : Option String) (body : Option JValue)
    (native : RespFields) (rurl : String)
    (h : native.readyState ≠ 4 ∨ native.status ≠ 200) :
    runXhrResponse world origin configs method body native rurl =
      { events := [], fired := [native], superseded := false } := by
  unfold runXhrResponse
  rw [if_neg]
  rintro ⟨h4, h200⟩
  rcases h with h | h
  · exact h h4
  · exact h h200

/-- Witness for C10 at a concrete 201 completion of a matching rule. -/
theorem c10_pipeline_only_on_status_200_witness :
    (native201.readyState ≠ 4 ∨ native201.status ≠ 200) ∧
    runXhrResponse world0 origin0 [ruleCbA] (some "get") none native201 urlA =
      { events := [], fired := [native201], superseded := false } :=
  ⟨Or.inr (by decide),
   c10_pipeline_only_on_status_200 world0 origin0 [ruleCbA] (some "get") none
     native201 urlA (Or.inr (by decide))⟩

/-- C7: when either the candidate URL or a string rule target fails to parse
as an absolute URL, the matcher returns `false` — it fails closed (totality
of the Lean function embodies that no exception escapes), for any method. -/
theorem c7_matcher_fails_closed (url target : String) (method : Option String)
    (cfg : InjectConfig) (hcfg : cfg.url = UrlTarget.str target)
    (h : parseURL url = none ∨ parseURL target = none) :
    isTargetUrl url cfg.url = false ∧ matchC url method cfg = false := by
  have ht : isTargetUrl url (UrlTarget.str target) = false := by
    rcases h with h | h
    · cases h2 : parseURL target <;> simp [isTargetUrl, h, h2]
    · cases h2 : parseURL url <;> simp [isTargetUrl, h, h2]
  refine ⟨by rw [hcfg]; exact ht, ?_⟩
  simp [matchC, hcfg, ht]

/-- Witness for C7: the relative string `/x` fails absolute parsing, so the
rule targeting it matches nothing. -/
theorem c7_matcher_fails_closed_witness :
    (parseURL "https://a.com/x" = none ∨ parseURL "/x" = none) ∧
    (isTargetUrl "https://a.com/x" ruleRelTarget.url = false ∧
     matchC "https://a.com/x" (some "get") ruleRelTarget = false) :=
  ⟨Or.inr (by decide),
   c7_matcher_fails_closed "https://a.com/x" "/x" (some "get") ruleRelTarget
     rfl (Or.inr (by decide))⟩

/-- C5 (code evaluated at the failing input): a rule whose string target is
the relative path `/api/x` does NOT match the absolute candidate
`https://example.com/api/x` (the target fails absolute-URL parsing and
matching fails closed), while the opposite direction — relative candidate,
absolute target — does work because the send stage resolves the candidate
against the page origin first. -/
theorem c5_relative_target_never_matches :
    isTargetUrl "https://example.com/api/x" (UrlTarget.str "/api/x") = false ∧
    isTargetUrl (requestUrlOf "https://example.com" "/api/x")
      (UrlTarget.str "https://example.com/api/x") = true := by
  decide

/-- Unfolding one supersede step: a matching rule whose `preCallback` rejects
with replacement `{uri: U, data: D}` ends the loop with the deferred view
built from the subsidiary call's completion, shaped by `lastCallback` when
present. -/
theorem xhrRespLoop_supersede_step (world : XhrWorld) (m : String) (ri : ReqInfo)
    (rurl : String) (c : InjectConfig) (post : List InjectConfig) (i : Nat)
    (cur : RespFields) (U : String) (D : Option JValue)
    (f : JValue → ReqInfo → Bool × Replacement)
    (hc : matchC rurl (some m) c = true) (hf : c.preCallback = some f)
    (hres : ∀ x r, f x r = (false, ⟨some U, D⟩))
    (hdone : (world m U D).readyState = 4) :
    xhrRespLoop world (some m) ri rurl (c :: post) i cur =
      match c.lastCallback with
      | some g =>
        ([HookEvent.preCBEvt i, HookEvent.lastCBEvt i],
         XhrLoopOut.sup (some (overwriteBody (supersedeView (world m U D))
           (g (getResponseData (supersedeView (world m U D))) ri))))
      | none =>
        ([HookEvent.preCBEvt i], XhrLoopOut.sup (some (supersedeView (world m U D)))) := by
  cases hlc : c.lastCallback with
  | none => simp [xhrRespLoop, hc, hf, hres, hlc, hdone]
  | some g => simp [xhrRespLoop, hc, hf, hres, hlc, hdone]

/-- C1: a legacy-transport call matched by a rule whose `preCallback` returns
`[false, {uri: U, data: D}]` is superseded: the caller's completion handler
fires exactly once, deferred, observing the view built from the subsidiary
call to `U` with body `D` and the original method — that call's status,
status text and body fields verbatim when the rule has no `lastCallback`,
and otherwise with the body fields replaced by the `lastCallback` result —
and never observes the real first response's completion. -/
theorem c1_supersede_flow (world : XhrWorld) (origin : String)
    (pre post : List InjectConfig) (c : InjectConfig) (m : String)
    (body : Option JValue) (native : RespFields) (rurl U : String)
    (D : Option JValue) (f : JValue → ReqInfo → Bool × Replacement)
    (h4 : native.readyState = 4) (h200 : native.status = 200)
    (hpre : ∀ cf ∈ pre, matchC rurl (some m) cf = false)
    (hc : matchC rurl (some m) c = true)
    (hf : c.preCallback = some f)
    (hres : ∀ x r, f x r = (false, ⟨some U, D⟩))
    (hdone : (world m U D).readyState = 4) :
    (runXhrResponse world origin (pre ++ c :: post) (some m) body native rurl).superseded
        = true ∧
    (runXhrResponse world origin (pre ++ c :: post) (some m) body native rurl).fired.length
        = 1 ∧
    (c.lastCallback = none →
      (runXhrResponse world origin (pre ++ c :: post) (some m) body native rurl).fired
        = [supersedeView (world m U D)]) ∧
    (∀ g, c.lastCallback = some g →
      (runXhrResponse world origin (pre ++ c :: post) (some m) body native rurl).fired
        = [overwriteBody (supersedeView (world m U D))
            (g (JValue.jstr (world m U D).responseText)
               { url := genUrl origin rurl, data := body })]) ∧
    (supersedeView (world m U D)).status = (world m U D).status ∧
    (supersedeView (world m U D)).statusText = (world m U D).statusText ∧
    (supersedeView (world m U D)).responseText = (world m U D).responseText ∧
    (supersedeView (world m U D)).response = (world m U D).response := by
  have hL := xhrRespLoop_skip_pre world (some m)
    { url := genUrl origin rurl, data := body } rurl pre (c :: post) 0 native hpre
  have hS := xhrRespLoop_supersede_step world m
    { url := genUrl origin rurl, data := body } rurl c post pre.length native U D f
    hc hf hres hdone
  simp only [Nat.zero_add] at hL
  cases hlc : c.lastCallback with
  | none =>
    have hobs : runXhrResponse world origin (pre ++ c :: post) (some m) body native rurl =
        { events := [HookEvent.preCBEvt pre.length]
        , fired := [supersedeView (world m U D)], superseded := true } := by
      unfold runXhrResponse
      rw [if_pos ⟨h4, h200⟩]
      show (match xhrRespLoop world (some m)
          { url := genUrl origin rurl, data := body } rurl (pre ++ c :: post) 0 native with
        | (evts, .done cur) => ({ events := evts, fired := [cur], superseded := false } : XhrObs)
        | (evts, .sup (some view)) => { events := evts, fired := [view], superseded := true }
        | (evts, .sup none) => { events := evts, fired := [], superseded := true }) = _
      rw [hL, hS, hlc]
    rw [hobs]
    refine ⟨rfl, rfl, fun _ => rfl, ?_, rfl, rfl, rfl, rfl⟩
    intro g hg
    exact Option.noConfusion hg
  | some g0 =>
    have hobs : runXhrResponse world origin (pre ++ c :: post) (some m) body native rurl =
        { events := [HookEvent.preCBEvt pre.length, HookEvent.lastCBEvt pre.length]
        , fired := [overwriteBody (supersedeView (world m U D))
            (g0 (getResponseData (supersedeView (world m U D)))
               { url := genUrl origin rurl, data := body })]
        , superseded := true } := by
      unfold runXhrResponse
      rw [if_pos ⟨h4, h200⟩]
      show (match xhrRespLoop world (some m)
          { url := genUrl origin rurl, data := body } rurl (pre ++ c :: post) 0 native with
        | (evts, .done cur) => ({ events := evts, fired := [cur], superseded := false } : XhrObs)
        | (evts, .sup (some view)) => { events := evts, fired := [view], superseded := true }
        | (evts, .sup none) => { events := evts, fired := [], superseded := true }) = _
      rw [hL, hS, hlc]
    rw [hobs]
    refine ⟨rfl, rfl, ?_, ?_, rfl, rfl, rfl, rfl⟩
    · intro h0
      exact Option.noConfusion h0
    · intro g hg
      cases hg
      rfl

/-- A rule whose `preCallback` always rejects, redirecting to
`https://a.com/y`. -/
def ruleSup : InjectConfig :=
  { url := .str urlA, method := "get", hasCallback := false
  , preCallback := some (fun _ _ => (false, ⟨some "https://a.com/y", none⟩))
  , lastCallback := none, beforeSendCallback := none }

/-- Witness for C1 at a concrete superseding rule. -/
theorem c1_supersede_flow_witness :
    native200.readyState = 4 ∧ native200.status = 200 ∧
    matchC urlA (some "get") ruleSup = true ∧
    (world0 "get" "https://a.com/y" none).readyState = 4 ∧
    ((runXhrResponse world0 origin0 [ruleSup] (some "get") none native200 urlA).superseded
        = true ∧
     (runXhrResponse world0 origin0 [ruleSup] (some "get") none native200 urlA).fired.length
        = 1 ∧
     (ruleSup.lastCallback = none →
       (runXhrResponse world0 origin0 [ruleSup] (some "get") none native200 urlA).fired
         = [supersedeView (world0 "get" "https://a.com/y" none)]) ∧
     (∀ g, ruleSup.lastCallback = some g →
       (runXhrResponse world0 origin0 [ruleSup] (some "get") none native200 urlA).fired
         = [overwriteBody (supersedeView (world0 "get" "https://a.com/y" none))
             (g (JValue.jstr (world0 "get" "https://a.com/y" none).responseText)
                { url := genUrl origin0 urlA, data := none })]) ∧
     (supersedeView (world0 "get" "https://a.com/y" none)).status
        = (world0 "get" "https://a.com/y" none).status ∧
     (supersedeView (world0 "get" "https://a.com/y" none)).statusText
        = (world0 "get" "https://a.com/y" none).statusText ∧
     (supersedeView (world0 "get" "https://a.com/y" none)).responseText
        = (world0 "get" "https://a.com/y" none).responseText ∧
     (supersedeView (world0 "get" "https://a.com/y" none)).response
        = (world0 "get" "https://a.com/y" none).response) := by
  refine ⟨rfl, rfl, by decide, rfl, ?_⟩
  exact c1_supersede_flow world0 origin0 [] [] ruleSup "get" none native200 urlA
    "https://a.com/y" none (fun _ _ => (false, ⟨some "https://a.com/y", none⟩))
    rfl rfl (by simp) (by decide) rfl (fun _ _ => rfl) rfl

/-- `cbIndices` distributes over event-list concatenation. -/
theorem cbIndices_append (a b : List HookEvent) :
    cbIndices (a ++ b) = cbIndices a ++ cbIndices b := by
  simp [cbIndices]

/-- The observation stage records exactly one `callback` firing when the rule
has one. -/
theorem cbIndices_observeStage (ri : ReqInfo) (cfg : InjectConfig) (i : Nat)
    (cur : RespFields) :
    cbIndices (xhrObserveStage ri cfg i cur).1 =
      if cfg.hasCallback then [i] else [] := by
  cases h : cfg.lastCallback <;> cases hc : cfg.hasCallback <;>
    simp [xhrObserveStage, cbIndices, h, hc]

/-- When no rule has a `preCallback`, the XHR response loop fires the
`callback` of every matching rule, in registry order. -/
theorem cbIndices_xhrRespLoop (world : XhrWorld) (method : Option String)
    (ri : ReqInfo) (rurl : String) (cfgs : List InjectConfig)
    (h : ∀ cf ∈ cfgs, cf.preCallback = none) (j : Nat) (cur : RespFields) :
    cbIndices (xhrRespLoop world method ri rurl cfgs j cur).1 =
      cbSpec rurl method cfgs j := by
  induction cfgs generalizing j cur with
  | nil => simp [xhrRespLoop, cbSpec, cbIndices]
  | cons cf rest ih =>
    have hcf : cf.preCallback = none := h cf (by simp)
    have hrest : ∀ x ∈ rest, x.preCallback = none := fun x hx => h x (by simp [hx])
    cases hm : matchC rurl method cf with
    | false =>
      rw [xhrRespLoop_skip_one world method ri rurl cf rest j cur hm]
      simp [cbSpec, hm, ih hrest]
    | true =>
      rcases hob : xhrObserveStage ri cf j cur with ⟨evts, cur2⟩
      have hobs := cbIndices_observeStage ri cf j cur
      rw [hob] at hobs
      simp only [xhrRespLoop, hm, hcf, hob]
      simp [cbIndices_append, hobs, ih hrest, cbSpec, hm]

/-- A non-matching rule is skipped by the fetch response loop. -/
theorem fetchRespLoop_skip_one (parse : String → Option JValue) (origin method : String)
    (initBody : Option JValue) (resp : FetchResponse) (c : InjectConfig)
    (rest : List InjectConfig) (i : Nat)
    (h : matchC resp.url (some method) c = false) :
    fetchRespLoop parse origin method initBody resp (c :: rest) i =
      fetchRespLoop parse origin method initBody resp rest (i + 1) := by
  simp [fetchRespLoop, h]

/-- When no rule has a `lastCallback`, the fetch response loop fires the
`callback` of every matching rule, in registry order. -/
theorem cbIndices_fetchRespLoop (parse : String → Option JValue) (origin method : String)
    (initBody : Option JValue) (resp : FetchResponse) (cfgs : List InjectConfig)
    (h : ∀ cf ∈ cfgs, cf.lastCallback = none) (i : Nat) :
    cbIndices (fetchRespLoop parse origin method initBody resp cfgs i).1 =
      cbSpec resp.url (some method) cfgs i := by
  induction cfgs generalizing i with
  | nil => simp [fetchRespLoop, cbSpec, cbIndices]
  | cons cf rest ih =>
    have hcf : cf.lastCallback = none := h cf (by simp)
    have hrest : ∀ x ∈ rest, x.lastCallback = none := fun x hx => h x (by simp [hx])
    cases hm : matchC resp.url (some method) cf with
    | false =>
      rw [fetchRespLoop_skip_one parse origin method initBody resp cf rest i hm]
      simp [cbSpec, hm, ih hrest]
    | true =>
      rcases hfl : fetchRespLoop parse origin method initBody resp rest (i + 1)
        with ⟨evts, out⟩
      have hih := ih hrest (i + 1)
      rw [hfl] at hih
      simp only at hih
      simp only [fetchRespLoop, hm, hcf, hfl, if_true]
      rw [cbIndices_append, hih]
      simp only [cbSpec, hm, Bool.true_and]
      cases cf.hasCallback <;> simp [cbIndices]

/-- C2 (amended): in the response stage, the hooks of every matching rule
run, not only the first match.  When no rule has a `preCallback` (XHR) or no
rule has a `lastCallback` (fetch), all matching rules' `callback` hooks fire
in registration order. -/
theorem c2_amended_every_matching_rule_runs (world : XhrWorld)
    (origin rurl : String) (method : Option String) (body : Option JValue)
    (native : RespFields) (cfgsX : List InjectConfig)
    (parse : String → Option JValue) (origin2 fmethod : String)
    (initBody : Option JValue) (resp : FetchResponse) (cfgsF : List InjectConfig)
    (h4 : native.readyState = 4) (h200 : native.status = 200)
    (hx : ∀ cf ∈ cfgsX, cf.preCallback = none)
    (hfe : ∀ cf ∈ cfgsF, cf.lastCallback = none) :
    cbIndices (runXhrResponse world origin cfgsX method body native rurl).events =
      cbSpec rurl method cfgsX 0 ∧
    cbIndices (runFetchResponse parse origin2 cfgsF fmethod initBody resp).1 =
      cbSpec resp.url (some fmethod) cfgsF 0 := by
  constructor
  · have hrun : runXhrResponse world origin cfgsX method body native rurl =
        (match xhrRespLoop world method { url := genUrl origin rurl, data := body }
            rurl cfgsX 0 native with
         | (evts, .done cur) =>
             ({ events := evts, fired := [cur], superseded := false } : XhrObs)
         | (evts, .sup (some view)) =>
             { events := evts, fired := [view], superseded := true }
         | (evts, .sup none) => { events := evts, fired := [], superseded := true }) := by
      unfold runXhrResponse
      rw [if_pos ⟨h4, h200⟩]
    have hh := cbIndices_xhrRespLoop world method
      { url := genUrl origin rurl, data := body } rurl cfgsX hx 0 native
    rw [hrun]
    rcases hL : xhrRespLoop world method { url := genUrl origin rurl, data := body }
        rurl cfgsX 0 native with ⟨evts, out⟩
    rw [hL] at hh
    cases out with
    | done cur => simpa using hh
    | sup v => cases v with
      | none => simpa using hh
      | some view => simpa using hh
  · exact cbIndices_fetchRespLoop parse origin2 fmethod initBody resp cfgsF hfe 0

/-- A fetch response snapshot for witnesses: a 200 completion of `urlA`. -/
def resp0 : FetchResponse :=
  { url := urlA, status := 200, statusText := "OK", headers := []
  , bodyText := "ok" }

/-- A `JSON.parse` model that always fails (raw text fallback). -/
def parse0 : String → Option JValue := fun _ => none

/-- Witness for amended C2 with two matching callback-only rules on each
transport. -/
theorem c2_amended_every_matching_rule_runs_witness :
    native200.readyState = 4 ∧ native200.status = 200 ∧
    (∀ cf ∈ [ruleCbA, ruleCbB], cf.preCallback = none) ∧
    (∀ cf ∈ [ruleCbA, ruleCbB], cf.lastCallback = none) ∧
    (cbIndices (runXhrResponse world0 origin0 [ruleCbA, ruleCbB] (some "get") none
        native200 urlA).events = cbSpec urlA (some "get") [ruleCbA, ruleCbB] 0 ∧
     cbIndices (runFetchResponse parse0 origin0 [ruleCbA, ruleCbB] "get" none
        resp0).1 = cbSpec resp0.url (some "get") [ruleCbA, ruleCbB] 0) := by
  have hp : ∀ cf ∈ [ruleCbA, ruleCbB], cf.preCallback = none := by
    intro cf hcf
    rcases List.mem_cons.mp hcf with rfl | hcf
    · rfl
    rcases List.mem_cons.mp hcf with rfl | hcf
    · rfl
    cases hcf
  have hl : ∀ cf ∈ [ruleCbA, ruleCbB], cf.lastCallback = none := by
    intro cf hcf
    rcases List.mem_cons.mp hcf with rfl | hcf
    · rfl
    rcases List.mem_cons.mp hcf with rfl | hcf
    · rfl
    cases hcf
  exact ⟨rfl, rfl, hp, hl,
    c2_amended_every_matching_rule_runs world0 origin0 urlA (some "get") none
      native200 [ruleCbA, ruleCbB] parse0 origin0 "get" none resp0
      [ruleCbA, ruleCbB] rfl rfl hp hl⟩

/-- C2 counterexample: a completed XHR call matching two registered
callback-only rules fires BOTH rules' `callback` hooks (indices 0 and 1) —
the response-stage loop has no first-match cutoff. -/
theorem c2_counterexample_second_rule_hook_runs :
    cbIndices (runXhrResponse world0 origin0 [ruleCbA, ruleCbB] (some "get") none
        native200 urlA).events = [0, 1] ∧
    HookEvent.cbEvt 1 ∈ (runXhrResponse world0 origin0 [ruleCbA, ruleCbB]
        (some "get") none native200 urlA).events := by
  decide

/-- Rules that fail to match, or match but have no `lastCallback`, do not
change the response the fetch loop returns. -/
theorem fetchRespLoop_snd_skip (parse : String → Option JValue) (origin method : String)
    (initBody : Option JValue) (resp : FetchResponse) (pre rest : List InjectConfig)
    (i : Nat)
    (h : ∀ cf ∈ pre, matchC resp.url (some method) cf = false ∨ cf.lastCallback = none) :
    (fetchRespLoop parse origin method initBody resp (pre ++ rest) i).2 =
      (fetchRespLoop parse origin method initBody resp rest (i + pre.length)).2 := by
  induction pre generalizing i with
  | nil => simp
  | cons a pre ih =>
    have hstep : (fetchRespLoop parse origin method initBody resp
        ((a :: pre) ++ rest) i).2 =
        (fetchRespLoop parse origin method initBody resp (pre ++ rest) (i + 1)).2 := by
      rcases h a (by simp) with hm | hl
      · rw [List.cons_append,
          fetchRespLoop_skip_one parse origin method initBody resp a (pre ++ rest) i hm]
      · cases hm : matchC resp.url (some method) a with
        | false =>
          rw [List.cons_append,
            fetchRespLoop_skip_one parse origin method initBody resp a (pre ++ rest) i hm]
        | true =>
          rcases hfl : fetchRespLoop parse origin method initBody resp (pre ++ rest) (i + 1)
            with ⟨evts, out⟩
          simp [fetchRespLoop, hm, hl, hfl]
    rw [hstep, ih (i + 1) (fun cf hcf => h cf (by simp [hcf]))]
    have : i + 1 + pre.length = i + (a :: pre).length := by
      simp [List.length_cons]; omega
    rw [this]

/-- The first matching rule with a `lastCallback` makes the fetch stage
return a brand-new response: same status, status text and headers, body text
from the hook's return value via `asBodyText`. -/
theorem fetchRespLoop_lastCallback_step (parse : String → Option JValue)
    (origin method : String) (initBody : Option JValue) (resp : FetchResponse)
    (c : InjectConfig) (rest : List InjectConfig) (i : Nat)
    (g : JValue → ReqInfo → JValue)
    (hm : matchC resp.url (some method) c = true)
    (hg : c.lastCallback = some g) :
    (fetchRespLoop parse origin method initBody resp (c :: rest) i).2 =
      { url := "", status := resp.status, statusText := resp.statusText
      , headers := resp.headers
      , bodyText := asBodyText (g ((parse resp.bodyText).getD (.jstr resp.bodyText))
          { url := genUrl origin resp.url, data := initBody }) } := by
  simp [fetchRespLoop, hm, hg]

/-- A matching rule with no `preCallback`, followed only by non-matching
rules, ends the XHR response loop with the observation stage's view. -/
theorem xhrRespLoop_observe_step (world : XhrWorld) (method : Option String)
    (ri : ReqInfo) (rurl : String) (c : InjectConfig) (post : List InjectConfig)
    (i : Nat) (cur : RespFields)
    (hm : matchC rurl method c = true) (hp : c.preCallback = none)
    (hpost : ∀ cf ∈ post, matchC rurl method cf = false) :
    xhrRespLoop world method ri rurl (c :: post) i cur =
      ((xhrObserveStage ri c i cur).1,
       XhrLoopOut.done (xhrObserveStage ri c i cur).2) := by
  rcases hob : xhrObserveStage ri c i cur with ⟨evts, cur2⟩
  have hrest := xhrRespLoop_all_skip world method ri rurl post (i + 1) cur2 hpost
  simp [xhrRespLoop, hm, hp, hob, hrest]

/-- C4 (amended): a `lastCallback` return value reaches the caller
differently on the two transports.  On fetch, the new response's body text is
`asBodyText` of the return value — a string verbatim, anything else
JSON-serialized — with status, status text and headers preserved.  On XHR,
the observed view is `overwriteBody`: `response` holds the return value
unserialized, and `responseText` holds `stringify` of it unconditionally, so
even a string return appears JSON-quoted there. -/
theorem c4_amended_lastCallback_serialization (parse : String → Option JValue)
    (origin : String) (pre post : List InjectConfig) (c : InjectConfig)
    (g : JValue → ReqInfo → JValue) (method : String) (initBody : Option JValue)
    (resp : FetchResponse) (world : XhrWorld) (origin2 rurl : String)
    (pre2 post2 : List InjectConfig) (c2 : InjectConfig)
    (g2 : JValue → ReqInfo → JValue) (m2 : Option String) (body2 : Option JValue)
    (native2 : RespFields)
    (hpre : ∀ cf ∈ pre, matchC resp.url (some method) cf = false ∨ cf.lastCallback = none)
    (hc : matchC resp.url (some method) c = true)
    (hg : c.lastCallback = some g)
    (h4 : native2.readyState = 4) (h200 : native2.status = 200)
    (hpre2 : ∀ cf ∈ pre2, matchC rurl m2 cf = false)
    (hpost2 : ∀ cf ∈ post2, matchC rurl m2 cf = false)
    (hc2 : matchC rurl m2 c2 = true)
    (hp2 : c2.preCallback = none)
    (hg2 : c2.lastCallback = some g2) :
    (runFetchResponse parse origin (pre ++ c :: post) method initBody resp).2 =
      { url := "", status := resp.status, statusText := resp.statusText
      , headers := resp.headers
      , bodyText := asBodyText (g ((parse resp.bodyText).getD (.jstr resp.bodyText))
          { url := genUrl origin resp.url, data := initBody }) } ∧
    (runXhrResponse world origin2 (pre2 ++ c2 :: post2) m2 body2 native2 rurl).fired =
      [overwriteBody native2 (g2 (getResponseData native2)
          { url := genUrl origin2 rurl, data := body2 })] ∧
    (∀ s : String, asBodyText (.jstr s) = s) ∧
    (∀ v : JValue, (overwriteBody native2 v).response = v ∧
        (overwriteBody native2 v).responseText = stringify v) := by
  refine ⟨?_, ?_, fun s => rfl, fun v => ⟨rfl, rfl⟩⟩
  · unfold runFetchResponse
    rw [fetchRespLoop_snd_skip parse origin method initBody resp pre (c :: post) 0 hpre]
    rw [fetchRespLoop_lastCallback_step parse origin method initBody resp c post
      (0 + pre.length) g hc hg]
  · have hL := xhrRespLoop_skip_pre world m2
      { url := genUrl origin2 rurl, data := body2 } rurl pre2 (c2 :: post2) 0 native2 hpre2
    have hS := xhrRespLoop_observe_step world m2
      { url := genUrl origin2 rurl, data := body2 } rurl c2 post2 pre2.length native2
      hc2 hp2 hpost2
    simp only [Nat.zero_add] at hL
    have hob : (xhrObserveStage { url := genUrl origin2 rurl, data := body2 } c2
        pre2.length native2).2 =
        overwriteBody native2 (g2 (getResponseData native2)
          { url := genUrl origin2 rurl, data := body2 }) := by
      simp [xhrObserveStage, hg2]
    have hobs : runXhrResponse world origin2 (pre2 ++ c2 :: post2) m2 body2 native2 rurl =
        { events := (xhrObserveStage { url := genUrl origin2 rurl, data := body2 } c2
            pre2.length native2).1
        , fired := [(xhrObserveStage { url := genUrl origin2 rurl, data := body2 } c2
            pre2.length native2).2]
        , superseded := false } := by
      unfold runXhrResponse
      rw [if_pos ⟨h4, h200⟩]
      show (match xhrRespLoop world m2
          { url := genUrl origin2 rurl, data := body2 } rurl (pre2 ++ c2 :: post2) 0 native2 with
        | (evts, .done cur) => ({ events := evts, fired := [cur], superseded := false } : XhrObs)
        | (evts, .sup (some view)) => { events := evts, fired := [view], superseded := true }
        | (evts, .sup none) => { events := evts, fired := [], superseded := true }) = _
      rw [hL, hS]
    rw [hobs, hob]

/-- Witness for amended C4: `ruleLcStr`'s `lastCallback` returns the string
`"hi"` on both transports. -/
theorem c4_amended_lastCallback_serialization_witness :
    matchC resp0.url (some "get") ruleLcStr = true ∧
    ruleLcStr.lastCallback = some (fun _ _ => JValue.jstr "hi") ∧
    native200.readyState = 4 ∧ native200.status = 200 ∧
    matchC urlA (some "get") ruleLcStr = true ∧
    ruleLcStr.preCallback = none ∧
    ((runFetchResponse parse0 origin0 [ruleLcStr] "get" none resp0).2 =
      { url := "", status := resp0.status, statusText := resp0.statusText
      , headers := resp0.headers, bodyText := asBodyText (JValue.jstr "hi") } ∧
     (runXhrResponse world0 origin0 [ruleLcStr] (some "get") none native200 urlA).fired =
      [overwriteBody native200 (JValue.jstr "hi")] ∧
     (∀ s : String, asBodyText (.jstr s) = s) ∧
     (∀ v : JValue, (overwriteBody native200 v).response = v ∧
        (overwriteBody native200 v).responseText = stringify v)) := by
  refine ⟨by decide, rfl, rfl, rfl, by decide, rfl, ?_⟩
  exact c4_amended_lastCallback_serialization parse0 origin0 [] [] ruleLcStr
    (fun _ _ => JValue.jstr "hi") "get" none resp0 world0 origin0 urlA [] []
    ruleLcStr (fun _ _ => JValue.jstr "hi") (some "get") none native200
    (by simp) (by decide) rfl rfl rfl (by simp) (by simp) (by decide) rfl rfl

/-- C4 counterexample: on XHR, a `lastCallback` returning the plain string
`"hi"` yields observed `responseText` `"\"hi\""` (JSON-quoted), not the
verbatim `"hi"` the claim asserts for both transports. -/
theorem c4_counterexample_xhr_quotes_string :
    ((runXhrResponse world0 origin0 [ruleLcStr] (some "get") none native200
        urlA).fired.map (fun r => r.responseText)) = ["\"hi\""] ∧
    ("\"hi\"" : String) ≠ "hi" := by
  decide

/-- The body-override branch of `beforeSendCallback` processing never touches
the header state. -/
theorem applyBodyOverride_headers (st : SendState) (res : BeforeSendResult) :
    (applyBodyOverride st res).recordedHeaders = st.recordedHeaders ∧
    (applyBodyOverride st res).nativeHeaders = st.nativeHeaders := by
  cases hd : res.data with
  | none => simp [applyBodyOverride, hd]
  | some d => cases ht : jTruthy d <;> simp [applyBodyOverride, hd, ht]

/-- Replaying the saved header map appends, to the native request, exactly
the recorded original-case name/value pairs minus `content-length`. -/
theorem applySavedHeaders_nativeHeaders (saved : List (String × HeaderRec))
    (st : SendState) :
    (applySavedHeaders saved st).nativeHeaders =
      st.nativeHeaders ++ saved.filterMap
        (fun e => if lowerAscii e.2.name == "content-length" then none
                  else some (e.2.name, e.2.value)) := by
  induction saved generalizing st with
  | nil => simp [applySavedHeaders]
  | cons e rest ih =>
    cases hcl : (lowerAscii e.2.name == "content-length") with
    | true =>
      have hcl2 : lowerAscii e.2.name = "content-length" := by simpa using hcl
      have hstep : applySavedHeaders (e :: rest) st = applySavedHeaders rest st := by
        simp [applySavedHeaders, hcl2]
      rw [hstep, ih]
      simp [List.filterMap_cons, hcl2]
    | false =>
      have hcl2 : ¬(lowerAscii e.2.name = "content-length") := by simpa using hcl
      have hstep : applySavedHeaders (e :: rest) st =
          applySavedHeaders rest (recordHeader st e.2.name e.2.value) := by
        simp [applySavedHeaders, hcl2]
      rw [hstep, ih]
      simp [List.filterMap_cons, hcl2, recordHeader, List.append_assoc]

/-- A non-matching rule is skipped by the pre-send loop. -/
theorem xhrSendLoop_skip_one (requestUrl : String) (c : InjectConfig)
    (rest : List InjectConfig) (i : Nat) (st : SendState)
    (h : matchC requestUrl st.method c = false) :
    xhrSendLoop requestUrl (c :: rest) i st = xhrSendLoop requestUrl rest (i + 1) st := by
  simp [xhrSendLoop, h]

/-- A block of non-matching rules is skipped by the pre-send loop. -/
theorem xhrSendLoop_skip_pre (requestUrl : String) (pre rest : List InjectConfig)
    (i : Nat) (st : SendState)
    (h : ∀ c ∈ pre, matchC requestUrl st.method c = false) :
    xhrSendLoop requestUrl (pre ++ rest) i st =
      xhrSendLoop requestUrl rest (i + pre.length) st := by
  induction pre generalizing i with
  | nil => simp
  | cons a pre ih =>
    rw [List.cons_append,
      xhrSendLoop_skip_one requestUrl a (pre ++ rest) i st (h a (by simp)),
      ih (i + 1) (fun c hc => h c (by simp [hc]))]
    have : i + 1 + pre.length = i + (a :: pre).length := by
      simp [List.length_cons]; omega
    rw [this]

/-- C6: when the first matching rule's `beforeSendCallback` returns a
replacement URL, the call is re-initiated and the native request ends up
carrying exactly the previously captured headers — original-case names and
values unchanged — except any header named `content-length`
(case-insensitively), which is dropped. -/
theorem c6_header_reapplication (origin : String) (pre post : List InjectConfig)
    (c : InjectConfig) (f : ReqInfo → Option BeforeSendResult)
    (res : BeforeSendResult) (u : String) (st : SendState)
    (hpre : ∀ cf ∈ pre, matchC (requestUrlOf origin st.uri) st.method cf = false)
    (hc : matchC (requestUrlOf origin st.uri) st.method c = true)
    (hb : c.beforeSendCallback = some f)
    (hres : f { url := parseURL (requestUrlOf origin st.uri), data := st.body } = some res)
    (hu : res.url = some u) :
    (xhrSendStage origin (pre ++ c :: post) st).2.nativeHeaders =
      st.recordedHeaders.filterMap
        (fun e => if lowerAscii e.2.name == "content-length" then none
                  else some (e.2.name, e.2.value)) ∧
    ∀ n v, (n, v) ∈ (xhrSendStage origin (pre ++ c :: post) st).2.nativeHeaders ↔
      ((∃ k, (k, HeaderRec.mk n v) ∈ st.recordedHeaders) ∧
        lowerAscii n ≠ "content-length") := by
  have hmain : (xhrSendStage origin (pre ++ c :: post) st).2.nativeHeaders =
      st.recordedHeaders.filterMap
        (fun e => if lowerAscii e.2.name == "content-length" then none
                  else some (e.2.name, e.2.value)) := by
    unfold xhrSendStage
    rw [xhrSendLoop_skip_pre (requestUrlOf origin st.uri) pre (c :: post) 0 st hpre]
    have hrec := (applyBodyOverride_headers st res).1
    simp only [xhrSendLoop, hc, hb, hres, hu, if_true, Option.getD_some]
    rw [applySavedHeaders_nativeHeaders]
    simp [hrec]
  refine ⟨hmain, ?_⟩
  intro n v
  rw [hmain, List.mem_filterMap]
  constructor
  · rintro ⟨⟨k, h⟩, hmem, hf⟩
    by_cases hcl : lowerAscii h.name == "content-length"
    · rw [if_pos hcl] at hf
      exact Option.noConfusion hf
    · rw [if_neg hcl] at hf
      injection hf with hf
      have hn : h.name = n := congrArg Prod.fst hf
      have hv : h.value = v := congrArg Prod.snd hf
      refine ⟨⟨k, ?_⟩, ?_⟩
      · have hmk : h = HeaderRec.mk n v := by
          cases h; cases hn; cases hv; rfl
        rwa [hmk] at hmem
      · intro hcon
        apply hcl
        rw [hn, hcon]
        rfl
  · rintro ⟨⟨k, hk⟩, hncl⟩
    refine ⟨(k, HeaderRec.mk n v), hk, ?_⟩
    have hnb : ¬(lowerAscii (HeaderRec.mk n v).name == "content-length") = true := by
      simpa using hncl
    rw [if_neg hnb]

/-- A rule whose `beforeSendCallback` overrides the URL to `https://a.com/y`. -/
def ruleBSe : InjectConfig :=
  { url := .str urlA, method := "get", hasCallback := false
  , preCallback := none, lastCallback := none
  , beforeSendCallback := some (fun _ => some { url := some "https://a.com/y", data := none }) }

/-- A send-stage state with two captured headers, one of them
`Content-Length`. -/
def stHdr : SendState :=
  { uri := "/x", method := some "get"
  , recordedHeaders := [("authorization", ⟨"Authorization", "tok"⟩),
      ("content-length", ⟨"Content-Length", "42"⟩)]
  , nativeHeaders := [("Authorization", "tok"), ("Content-Length", "42")]
  , body := none }

/-- Witness for C6: after the URL override, the native request carries the
`Authorization` header unchanged and the `Content-Length` header is gone. -/
theorem c6_header_reapplication_witness :
    matchC (requestUrlOf origin0 stHdr.uri) stHdr.method ruleBSe = true ∧
    ruleBSe.beforeSendCallback =
      some (fun _ => some { url := some "https://a.com/y", data := none }) ∧
    ((xhrSendStage origin0 [ruleBSe] stHdr).2.nativeHeaders =
      stHdr.recordedHeaders.filterMap
        (fun e => if lowerAscii e.2.name == "content-length" then none
                  else some (e.2.name, e.2.value)) ∧
     ∀ n v, (n, v) ∈ (xhrSendStage origin0 [ruleBSe] stHdr).2.nativeHeaders ↔
       ((∃ k, (k, HeaderRec.mk n v) ∈ stHdr.recordedHeaders) ∧
         lowerAscii n ≠ "content-length")) ∧
    (xhrSendStage origin0 [ruleBSe] stHdr).2.nativeHeaders =
      [("Authorization", "tok")] := by
  refine ⟨by decide, rfl, ?_, by decide⟩
  exact c6_header_reapplication origin0 [] [] ruleBSe
    (fun _ => some { url := some "https://a.com/y", data := none })
    { url := some "https://a.com/y", data := none } "https://a.com/y" stHdr
    (by simp) (by decide) rfl rfl rfl

/-- A rule carries the `(url, method)` identity `(u, m)`: its `url` is
`===`-equal to `u` and its `method` string-equal to `m` — the predicate
`countPair` counts by. -/
def hasKey (u : UrlTarget) (m : String) (c : InjectConfig) : Bool :=
  urlRefEq c.url u && c.method == m

/-- `countPair` is the length of the `hasKey` filter. -/
theorem countPair_filter (regs : List InjectConfig) (u : UrlTarget) (m : String) :
    countPair regs u m = (regs.filter (hasKey u m)).length := rfl

/-- `===` on rule targets is symmetric. -/
theorem urlRefEq_symm (a b : UrlTarget) (h : urlRefEq a b = true) :
    urlRefEq b a = true := by
  cases a with
  | str s =>
    cases b with
    | str t =>
      have e : s = t := by simpa [urlRefEq] using h
      simp [urlRefEq, e]
    | regex j g => simp [urlRefEq] at h
  | regex i f =>
    cases b with
    | str t => simp [urlRefEq] at h
    | regex j g =>
      have e : i = j := by simpa [urlRefEq] using h
      simp [urlRefEq, e]

/-- `===` on rule targets is transitive. -/
theorem urlRefEq_trans (a b c : UrlTarget) (h1 : urlRefEq a b = true)
    (h2 : urlRefEq b c = true) : urlRefEq a c = true := by
  cases a with
  | str s =>
    cases b with
    | str t =>
      cases c with
      | str r =>
        have e1 : s = t := by simpa [urlRefEq] using h1
        have e2 : t = r := by simpa [urlRefEq] using h2
        simp [urlRefEq, e1.trans e2]
      | regex k tf => simp [urlRefEq] at h2
    | regex j g => simp [urlRefEq] at h1
  | regex i f =>
    cases b with
    | str t => simp [urlRefEq] at h1
    | regex j g =>
      cases c with
      | str r => simp [urlRefEq] at h2
      | regex k tf =>
        have e1 : i = j := by simpa [urlRefEq] using h1
        have e2 : j = k := by simpa [urlRefEq] using h2
        simp [urlRefEq, e1.trans e2]

/-- The registry's duplicate test is symmetric. -/
theorem sameKey_symm (a b : InjectConfig) (h : sameKey a b = true) :
    sameKey b a = true := by
  simp only [sameKey, Bool.and_eq_true] at h ⊢
  refine ⟨urlRefEq_symm _ _ h.1, ?_⟩
  have e : a.method = b.method := by simpa using h.2
  simp [e]

/-- Two rules carrying the same `(url, method)` identity trip the registry's
duplicate test. -/
theorem sameKey_of_hasKey (u : UrlTarget) (m : String) (a b : InjectConfig)
    (ha : hasKey u m a = true) (hb : hasKey u m b = true) :
    sameKey a b = true := by
  simp only [hasKey, Bool.and_eq_true] at ha hb
  simp only [sameKey, Bool.and_eq_true]
  refine ⟨urlRefEq_trans _ _ _ ha.1 (urlRefEq_symm _ _ hb.1), ?_⟩
  have e1 : a.method = m := by simpa using ha.2
  have e2 : b.method = m := by simpa using hb.2
  simp [e1, e2]

/-- The duplicate test transports a `(url, method)` identity. -/
theorem hasKey_of_sameKey (u : UrlTarget) (m : String) (a b : InjectConfig)
    (hs : sameKey a b = true) (ha : hasKey u m a = true) :
    hasKey u m b = true := by
  simp only [sameKey, Bool.and_eq_true] at hs
  simp only [hasKey, Bool.and_eq_true] at ha ⊢
  refine ⟨urlRefEq_trans _ _ _ (urlRefEq_symm _ _ hs.1) ha.1, ?_⟩
  have e1 : a.method = b.method := by simpa using hs.2
  have e2 : a.method = m := by simpa using ha.2
  simp [← e1, e2]

/-- Appending one rule adds one to exactly its own key's count. -/
theorem countPair_append_singleton (regs : List InjectConfig) (n : InjectConfig)
    (u : UrlTarget) (m : String) :
    countPair (regs ++ [n]) u m =
      countPair regs u m + (if hasKey u m n then 1 else 0) := by
  rw [countPair_filter, countPair_filter, List.filter_append, List.length_append]
  congr 1
  by_cases hk : hasKey u m n = true
  · simp [List.filter_cons, hk]
  · simp [List.filter_cons, hk]

/-- A key's count is nonzero exactly when some entry carries it. -/
theorem countPair_ne_zero_iff (regs : List InjectConfig) (u : UrlTarget)
    (m : String) :
    countPair regs u m ≠ 0 ↔ ∃ c ∈ regs, hasKey u m c = true := by
  rw [countPair_filter]
  constructor
  · intro h
    rcases List.exists_mem_of_length_pos (Nat.pos_of_ne_zero h) with ⟨c, hc⟩
    exact ⟨c, (List.mem_filter.mp hc).1, (List.mem_filter.mp hc).2⟩
  · rintro ⟨c, hc, hkc⟩
    have hmem : c ∈ regs.filter (hasKey u m) := List.mem_filter.mpr ⟨hc, hkc⟩
    have hlen := List.length_pos.mpr (List.ne_nil_of_mem hmem)
    omega

/-- C3 (amended): `addConfig` yields exactly one entry per new
`(targetUrl, targetMethod)` identity and never adds to an existing one: for
every key, the count after `addConfig` equals the prior count when that is
nonzero — even when the prior registry carries constructor-born duplicates —
and otherwise is 1 exactly when the batch contains a rule with that key.
The surviving new rules are appended after the existing entries, preserving
the batch's relative order, carry pairwise-distinct keys, and share no key
with any existing entry. -/
theorem c3_amended_addConfig_exact : ∀ (cfgs regs : List InjectConfig),
    (∀ (u : UrlTarget) (m : String),
      countPair (addConfig regs cfgs) u m =
        if countPair regs u m = 0 then
          (if cfgs.any (hasKey u m) then 1 else 0)
        else countPair regs u m) ∧
    ∃ l, addConfig regs cfgs = regs ++ l ∧ l.Sublist cfgs ∧
      (∀ a ∈ regs, ∀ b ∈ l, sameKey a b = false) ∧ distinctKeys l := by
  intro cfgs
  induction cfgs with
  | nil =>
    intro regs
    constructor
    · intro u m
      by_cases hz : countPair regs u m = 0
      · rw [if_pos hz]
        simpa [addConfig] using hz
      · rw [if_neg hz]
        rfl
    · exact ⟨[], by simp [addConfig], List.nil_sublist _, by simp, List.Pairwise.nil⟩
  | cons n rest ih =>
    intro regs
    by_cases hex : (regs.any (fun cRule => sameKey cRule n)) = true
    · have hstep : addConfig regs (n :: rest) = addConfig regs rest := by
        show addConfig (if (regs.any fun cRule => sameKey cRule n) = true then regs
          else regs ++ [n]) rest = addConfig regs rest
        rw [if_pos hex]
      obtain ⟨ihc, l, he, hs, hdisj, hpw⟩ := ih regs
      refine ⟨?_, l, by rw [hstep, he], List.Sublist.cons n hs, hdisj, hpw⟩
      intro u m
      rw [hstep, ihc u m]
      by_cases hz : countPair regs u m = 0
      · rw [if_pos hz, if_pos hz]
        have hkn : hasKey u m n = false := by
          by_contra hk
          have hk2 : hasKey u m n = true := by simpa using hk
          rcases List.any_eq_true.mp hex with ⟨c, hcmem, hsk⟩
          have hkc : hasKey u m c = true :=
            hasKey_of_sameKey u m n c (sameKey_symm c n hsk) hk2
          exact (countPair_ne_zero_iff regs u m).mpr ⟨c, hcmem, hkc⟩ hz
        simp [List.any_cons, hkn]
      · rw [if_neg hz, if_neg hz]
    · have hex2 : (regs.any fun cRule => sameKey cRule n) = false := by
        simpa using hex
      have hnone : ∀ cf ∈ regs, sameKey cf n = false := by
        intro cf hcf
        by_contra hkey
        have hkey2 : sameKey cf n = true := by simpa using hkey
        have hany : (regs.any fun cRule => sameKey cRule n) = true :=
          List.any_eq_true.mpr ⟨cf, hcf, hkey2⟩
        rw [hany] at hex2
        cases hex2
      have hstep : addConfig regs (n :: rest) = addConfig (regs ++ [n]) rest := by
        show addConfig (if (regs.any fun cRule => sameKey cRule n) = true then regs
          else regs ++ [n]) rest = addConfig (regs ++ [n]) rest
        rw [if_neg hex]
      obtain ⟨ihc, l, he, hs, hdisj, hpw⟩ := ih (regs ++ [n])
      refine ⟨?_, n :: l, ?_, List.Sublist.cons₂ n hs, ?_, ?_⟩
      · intro u m
        rw [hstep, ihc u m, countPair_append_singleton]
        by_cases hk : hasKey u m n = true
        · have hz : countPair regs u m = 0 := by
            by_contra hnz
            rcases (countPair_ne_zero_iff regs u m).mp hnz with ⟨c, hcmem, hkc⟩
            have hck : sameKey c n = true := sameKey_of_hasKey u m c n hkc hk
            rw [hnone c hcmem] at hck
            cases hck
          rw [hz]
          simp [hk, List.any_cons]
        · have hk2 : hasKey u m n = false := by simpa using hk
          simp [hk2, List.any_cons]
      · rw [hstep, he, List.append_assoc]
        rfl
      · intro a ha b hb
        rcases List.mem_cons.mp hb with rfl | hbl
        · exact hnone a ha
        · exact hdisj a (List.mem_append_left _ ha) b hbl
      · show distinctKeys (n :: l)
        unfold distinctKeys
        rw [List.pairwise_cons]
        refine ⟨?_, hpw⟩
        intro b hb
        exact hdisj n (List.mem_append_right _ (by simp)) b hb

/-- Witness for amended C3: from an empty registry, a batch of two rules
sharing their key (`ruleCbA`, `ruleLcStr`) produces exactly one entry for
that key. -/
theorem c3_amended_addConfig_exact_witness :
    ((∀ (u : UrlTarget) (m : String),
      countPair (addConfig [] [ruleCbA, ruleLcStr]) u m =
        if countPair [] u m = 0 then
          (if [ruleCbA, ruleLcStr].any (hasKey u m) then 1 else 0)
        else countPair [] u m) ∧
     ∃ l, addConfig [] [ruleCbA, ruleLcStr] = [] ++ l ∧
       l.Sublist [ruleCbA, ruleLcStr] ∧
       (∀ a ∈ ([] : List InjectConfig), ∀ b ∈ l, sameKey a b = false) ∧
       distinctKeys l) ∧
    countPair (addConfig [] [ruleCbA, ruleLcStr]) (UrlTarget.str urlA) "get" = 1 :=
  ⟨c3_amended_addConfig_exact [ruleCbA, ruleLcStr] [], by decide⟩

/-- A fresh global state before any construction. -/
def freshState : GlobalState :=
  { isHijacked := false, instanceRef := none
  , xhrOpen := .nativeFn 0, xhrSend := .nativeFn 1, fetchEP := .nativeFn 2 }

/-- C3 counterexample: constructing with an initial batch of two rules
sharing their `(targetUrl, targetMethod)` identity stores BOTH — the
constructor performs no duplicate suppression, so the registry does not have
exactly one entry for that pair. -/
theorem c3_counterexample_constructor_batch_not_deduped :
    ∃ s, (construct freshState [ruleCbA, ruleLcStr]).state.instanceRef = some s ∧
      sameKey ruleCbA ruleLcStr = true ∧
      countPair s.interceptConfigs (UrlTarget.str urlA) "get" = 2 := by
  refine ⟨{ interceptConfigs := [ruleCbA, ruleLcStr]
          , originalXHRopen := .nativeFn 0, originalXHRsend := .nativeFn 1
          , originalFetch := .nativeFn 2 }, rfl, by decide, by decide⟩

/-- A live session holding one rule, with captured native entry points. -/
def sessA : Session :=
  { interceptConfigs := [ruleCbA], originalXHRopen := .nativeFn 0
  , originalXHRsend := .nativeFn 1, originalFetch := .nativeFn 2 }

/-- The global state after a successful installation of `sessA`. -/
def stActive : GlobalState :=
  { isHijacked := true, instanceRef := some sessA
  , xhrOpen := .wrappedOpen, xhrSend := .wrappedSend, fetchEP := .wrappedFetch }

/-- C8 (amended): construction while a session is active installs no second
session.  With the singleton present, the rules are forwarded to its
registry, the instance is reused and NO warning is logged; the warning is
logged only in the defensive branch where the active flag is set but the
singleton reference is absent, and then construction changes nothing and
installs nothing. -/
theorem c8_amended_no_warning_when_instance_present (st : GlobalState)
    (opts : List InjectConfig) (hh : st.isHijacked = true) :
    (∀ s, st.instanceRef = some s →
       (construct st opts).logs = [] ∧
       (construct st opts).state.isHijacked = st.isHijacked ∧
       (construct st opts).state.xhrOpen = st.xhrOpen ∧
       (construct st opts).state.xhrSend = st.xhrSend ∧
       (construct st opts).state.fetchEP = st.fetchEP ∧
       (construct st opts).state.instanceRef =
         some { s with interceptConfigs := addConfig s.interceptConfigs opts }) ∧
    (st.instanceRef = none →
       (construct st opts).logs = [alreadyActiveWarning] ∧
       (construct st opts).state = st) := by
  constructor
  · intro s hs
    simp [construct, hh, hs]
  · intro hs
    simp [construct, hh, hs]

/-- Witness for amended C8 on the live state `stActive`. -/
theorem c8_amended_no_warning_when_instance_present_witness :
    stActive.isHijacked = true ∧
    ((∀ s, stActive.instanceRef = some s →
       (construct stActive [ruleCbB]).logs = [] ∧
       (construct stActive [ruleCbB]).state.isHijacked = stActive.isHijacked ∧
       (construct stActive [ruleCbB]).state.xhrOpen = stActive.xhrOpen ∧
       (construct stActive [ruleCbB]).state.xhrSend = stActive.xhrSend ∧
       (construct stActive [ruleCbB]).state.fetchEP = stActive.fetchEP ∧
       (construct stActive [ruleCbB]).state.instanceRef =
         some { s with interceptConfigs := addConfig s.interceptConfigs [ruleCbB] }) ∧
     (stActive.instanceRef = none →
       (construct stActive [ruleCbB]).logs = [alreadyActiveWarning] ∧
       (construct stActive [ruleCbB]).state = stActive)) :=
  ⟨rfl, c8_amended_no_warning_when_instance_present stActive [ruleCbB] rfl⟩

/-- C8 counterexample: constructing while `stActive`'s session is live logs
nothing at all — in particular not the duplicate-interception warning the
claim requires. -/
theorem c8_counterexample_no_warning_logged :
    (construct stActive [ruleCbB]).logs = [] ∧
    (construct stActive [ruleCbB]).logs ≠ [alreadyActiveWarning] := by
  refine ⟨rfl, ?_⟩
  intro h
  rw [show (construct stActive [ruleCbB]).logs = [] from rfl] at h
  exact List.noConfusion h

/-- C9: `restore` puts the three captured entry points back and changes
nothing else — the active flag and the singleton reference stay set — so a
construction attempted after `restore` does not re-install interception: it
merely registers its rules on the dead session, leaving all three entry
points at the restored originals. -/
theorem c9_restore_keeps_flag_and_instance (st : GlobalState) (s : Session)
    (opts : List InjectConfig) (hh : st.isHijacked = true)
    (hi : st.instanceRef = some s) :
    (restoreSession s st).isHijacked = st.isHijacked ∧
    (restoreSession s st).instanceRef = st.instanceRef ∧
    (restoreSession s st).xhrOpen = s.originalXHRopen ∧
    (restoreSession s st).xhrSend = s.originalXHRsend ∧
    (restoreSession s st).fetchEP = s.originalFetch ∧
    (construct (restoreSession s st) opts).state.xhrOpen = s.originalXHRopen ∧
    (construct (restoreSession s st) opts).state.xhrSend = s.originalXHRsend ∧
    (construct (restoreSession s st) opts).state.fetchEP = s.originalFetch ∧
    (construct (restoreSession s st) opts).logs = [] ∧
    (construct (restoreSession s st) opts).state.instanceRef =
      some { s with interceptConfigs := addConfig s.interceptConfigs opts } := by
  refine ⟨rfl, rfl, rfl, rfl, rfl, ?_, ?_, ?_, ?_, ?_⟩ <;>
    simp [construct, restoreSession, hh, hi]

/-- Witness for C9 on the live state `stActive`. -/
theorem c9_restore_keeps_flag_and_instance_witness :
    stActive.isHijacked = true ∧ stActive.instanceRef = some sessA ∧
    ((restoreSession sessA stActive).isHijacked = stActive.isHijacked ∧
     (restoreSession sessA stActive).instanceRef = stActive.instanceRef ∧
     (restoreSession sessA stActive).xhrOpen = sessA.originalXHRopen ∧
     (restoreSession sessA stActive).xhrSend = sessA.originalXHRsend ∧
     (restoreSession sessA stActive).fetchEP = sessA.originalFetch ∧
     (construct (restoreSession sessA stActive) [ruleCbB]).state.xhrOpen
        = sessA.originalXHRopen ∧
     (construct (restoreSession sessA stActive) [ruleCbB]).state.xhrSend
        = sessA.originalXHRsend ∧
     (construct (restoreSession sessA stActive) [ruleCbB]).state.fetchEP
        = sessA.originalFetch ∧
     (construct (restoreSession sessA stActive) [ruleCbB]).logs = [] ∧
     (construct (restoreSession sessA stActive) [ruleCbB]).state.instanceRef =
       some { sessA with
         interceptConfigs := addConfig sessA.interceptConfigs [ruleCbB] }) :=
  ⟨rfl, rfl, c9_restore_keeps_flag_and_instance stActive sessA [ruleCbB] rfl rfl⟩

end XFI
